import Mathlib

/-!
Shallow embedding of the normalizing-flow / VAE core of `HW3/Q2.ipynb`
(planar and radial flows, the `NormalizingFlow` composition class, and the
`latent` methods of `VAE` and `VAENormalizingFlow`).

Modelling conventions:
* Tensors of shape `(batch_size, dim)` are `List (List ℚ)`; a row is one sample.
* Scalars are `ℚ`.  The transcendental functions supplied by the tensor
  runtime (`tanh`, `log`, `exp`, and the `sqrt` inside `torch.norm`) are
  abstracted into a `ScalarOps` record, so every definition stays computable
  and the algebraic structure of the source is preserved exactly.
* The reparameterization draw `q.sample((n_batch,))` is passed in explicitly
  as the argument `eps` (one realization of the noise), since the claims
  quantify over "any realization of the reparameterized draw".
* `nn.Parameter` initialization (`uniform_(-0.01, 0.01)`) draws are passed in
  explicitly where construction is modelled.
-/

namespace FlowVAE

/-- The scalar operations of the external tensor/autodiff runtime, treated as
a black box: `torch.tanh`, `torch.log`, `torch.exp`, and the square root used
inside `torch.norm`. -/
structure ScalarOps where
  tanh : ℚ → ℚ
  log : ℚ → ℚ
  exp : ℚ → ℚ
  sqrt : ℚ → ℚ

/-- One sample (a row of a `(batch, dim)` tensor). -/
abbrev Vec := List ℚ

/-- A batch of samples, shape `(batch_size, dim)`. -/
abbrev Batch := List Vec

/-- The additive guard `1e-9` used before each logarithm in the source. -/
def eps9 : ℚ := 1 / 1000000000

/-- Dot product of two vectors (`torch.mm` of a `(1,d)` row with a `(d,1)`
column, and `F.linear` without bias). -/
def dot (w z : Vec) : ℚ := (List.zipWith (fun a b => a * b) w z).sum

/-- Shape predicate: `z` has shape `(B, D)`. -/
def IsMatrix (B D : ℕ) (z : Batch) : Prop :=
  z.length = B ∧ ∀ r ∈ z, r.length = D

/-- Parameters of `PlanarFlow`: `self.weight : (1, dim)`,
`self.scale : (1, dim)`, `self.bias : (1,)`. -/
structure PlanarFlow where
  weight : Vec
  scale : Vec
  bias : ℚ
deriving DecidableEq

/-- The pre-activation `f_z = F.linear(z, self.weight, self.bias)` for one sample `z`:
the scalar `w·z + b`. -/
def PlanarFlow.f_z (p : PlanarFlow) (z : Vec) : ℚ := dot p.weight z + p.bias

/-- Source method `_call` of `PlanarFlow` on one sample:
`z + self.scale * torch.tanh(f_z)` — the scalar `tanh(f_z)` broadcasts
against the `dim`-vector `scale` and the result is added elementwise. -/
def PlanarFlow.call (S : ScalarOps) (p : PlanarFlow) (z : Vec) : Vec :=
  List.zipWith (fun zi ui => zi + ui * S.tanh (p.f_z z)) z p.scale

/-- Source method `log_abs_det_jacobian` of `PlanarFlow` on one sample:
`psi = (1 - tanh(f_z)^2) * weight`; `det_grad = 1 + psi·scale`;
result `log(|det_grad| + 1e-9)`. -/
def PlanarFlow.log_abs_det_jacobian_row (S : ScalarOps) (p : PlanarFlow)
    (z : Vec) : ℚ :=
  let t := S.tanh (p.f_z z)
  let psi := p.weight.map (fun wi => (1 - t ^ 2) * wi)
  let det_grad := 1 + dot psi p.scale
  S.log (|det_grad| + eps9)

/-- Parameters of `RadialFlow`: `self.z0 : (1, dim)`, scalars `self.alpha`,
`self.beta`, and the stored `self.dim`. -/
structure RadialFlow where
  z0 : Vec
  alpha : ℚ
  beta : ℚ
  dim : ℕ
deriving DecidableEq

/-- The quantity `torch.norm(z - self.z0, dim=1)` for one sample: the
Euclidean norm, i.e. the square root (of the runtime) applied to the sum of
squared differences. -/
def RadialFlow.r (S : ScalarOps) (p : RadialFlow) (z : Vec) : ℚ :=
  S.sqrt ((List.zipWith (fun a b => (a - b) ^ 2) z p.z0).sum)

/-- Source method `_call` of `RadialFlow` on one sample:
`h = 1 / (alpha + r)`; result `z + beta * h * (z - z0)` elementwise. -/
def RadialFlow.call (S : ScalarOps) (p : RadialFlow) (z : Vec) : Vec :=
  let r := p.r S z
  let h := 1 / (p.alpha + r)
  List.zipWith (fun zi z0i => zi + p.beta * h * (zi - z0i)) z p.z0

/-- Source method `log_abs_det_jacobian` of `RadialFlow` on one sample:
`h = 1/(alpha+r)`; `hp = -1/(alpha+r)^2`; `bh = beta*h`;
`det_grad = ((1+bh)^dim - 1) * (1 + bh + beta*hp*r)`;
result `log(|det_grad| + 1e-9)`. -/
def RadialFlow.log_abs_det_jacobian_row (S : ScalarOps) (p : RadialFlow)
    (z : Vec) : ℚ :=
  let r := p.r S z
  let h := 1 / (p.alpha + r)
  let hp := -(1 / (p.alpha + r) ^ 2)
  let bh := p.beta * h
  let det_grad := ((1 + bh) ^ p.dim - 1) * (1 + bh + p.beta * hp * r)
  S.log (|det_grad| + eps9)

/-- A concrete flow instance: the two flow classes the notebook defines. -/
inductive Flow where
  | planar : PlanarFlow → Flow
  | radial : RadialFlow → Flow
deriving DecidableEq

/-- Dispatch of the source method `_call` on one sample. -/
def Flow.callRow (S : ScalarOps) : Flow → Vec → Vec
  | .planar p, z => p.call S z
  | .radial p, z => p.call S z

/-- Dispatch of the source method `log_abs_det_jacobian` on one sample. -/
def Flow.ladjRow (S : ScalarOps) : Flow → Vec → ℚ
  | .planar p, z => p.log_abs_det_jacobian_row S z
  | .radial p, z => p.log_abs_det_jacobian_row S z

/-- Forward transform of a flow on a whole `(batch, dim)` batch
(every torch op involved acts row-wise on the batch dimension). -/
def Flow.forward (S : ScalarOps) (f : Flow) (z : Batch) : Batch :=
  z.map (Flow.callRow S f)

/-- Method `log_abs_det_jacobian` of a flow on a whole batch: the `(batch, 1)`
column of per-sample log-determinants, modelled as a length-`batch` vector. -/
def Flow.log_abs_det_jacobian (S : ScalarOps) (f : Flow) (z : Batch) : Vec :=
  z.map (Flow.ladjRow S f)

/-- The parameter vectors of the flow have length `d` (shapes consistent with a
`dim = d` construction). -/
def Flow.hasDim (d : ℕ) : Flow → Prop
  | .planar p => p.weight.length = d ∧ p.scale.length = d
  | .radial p => p.z0.length = d

/-- The `NormalizingFlow` object.  `bijectors` is the `nn.ModuleList` of
flow instances; `log_det` is the mutable instance attribute `self.log_det`
(initialized `[]` in `__init__`, reassigned by every `forward` call).
The `ComposeTransform` / `TransformedDistribution` wrappers built from the
same `biject` list, and the stored base density, are objects of the external
distribution library and are not modelled. -/
structure NormalizingFlow where
  bijectors : List Flow
  log_det : List Vec
deriving DecidableEq

/-- Source constructor `__init__` of `NormalizingFlow`: the double loop
`for f in range(flow_length): for b_flow in blocks: biject.append(b_flow(dim))`.
Each block is modelled as a constructor `ℕ → Flow` (the randomness of
`init_parameters` is folded into the constructor). `self.log_det = []`. -/
def NormalizingFlow.init (dim : ℕ) (blocks : List (ℕ → Flow))
    (flow_length : ℕ) : NormalizingFlow :=
  { bijectors :=
      (List.range flow_length).flatMap (fun _ => blocks.map (fun b => b dim)),
    log_det := [] }

/-- The loop body of `NormalizingFlow.forward`: starting from batch `z`,
for each flow in order, first record `log_abs_det_jacobian(z)`, then replace
`z` by the forward transform of that flow.  Returns the final batch and the
recorded list. -/
def flowSteps (S : ScalarOps) : List Flow → Batch → Batch × List Vec
  | [], z => (z, [])
  | f :: fs, z =>
    let ld := Flow.log_abs_det_jacobian S f z
    let rest := flowSteps S fs (Flow.forward S f z)
    (rest.1, ld :: rest.2)

/-- Source method `forward` of `NormalizingFlow`: resets `self.log_det = []`,
runs the loop
appending into it, and returns `(z, self.log_det)`.  The updated object (its
`log_det` attribute now holding the recordings of this call) is returned as the
first component to make the state change explicit. -/
def NormalizingFlow.forward (S : ScalarOps) (nf : NormalizingFlow)
    (z : Batch) : NormalizingFlow × Batch × List Vec :=
  let res := flowSteps S nf.bijectors z
  ({ nf with log_det := res.2 }, res.1, res.2)

/-- Sequential application of a list of flows to a batch (the composition
`z ↦ f_N (... (f_1 z))`). -/
def applySeq (S : ScalarOps) (fs : List Flow) (z : Batch) : Batch :=
  fs.foldl (fun acc f => Flow.forward S f acc) z

/-- Elementwise binary operation on two batches of equal shape
(torch elementwise arithmetic). -/
def bmap2 (f : ℚ → ℚ → ℚ) : Batch → Batch → Batch :=
  List.zipWith (List.zipWith f)

/-- Total `torch.sum` over all elements of a batch. -/
def bsum (z : Batch) : ℚ := (z.map List.sum).sum

/-- Source method `latent` of `VAE` (plain mode).  `x` is the input batch
(used only through
`n_batch = x.size(0)`), `mu`/`sigma` the encoder outputs, `eps` the
realization of `q.sample((n_batch,))`.  Returns
`z = sigma * eps + mu` and
`kl_div = -0.5 * sum(1 + sigma - mu^2 - exp(sigma)) / n_batch`. -/
def VAE.latent (S : ScalarOps) (x mu sigma eps : Batch) : Batch × ℚ :=
  let n_batch : ℚ := (x.length : ℚ)
  let z := bmap2 (fun a b => a + b) (bmap2 (fun s e => s * e) sigma eps) mu
  let kl_div :=
    -(1/2) * bsum (bmap2 (fun s m => 1 + s - m ^ 2 - S.exp s) sigma mu)
  (z, kl_div / n_batch)

/-- Source method `latent` of `VAENormalizingFlow`.  Draws
`z_0 = sigma * eps + mu`, pushes it
through the flow (`self.flow(z_0)`), computes
`log_p_zk = -0.5 * z_k * z_k`,
`log_q_z0 = -0.5 * (sigma.log() + (z_0-mu)*(z_0-mu)*sigma.reciprocal())`,
`logs = (log_q_z0 - log_p_zk).sum() - torch.sum(torch.cat(list_ladj))`,
and returns `(z_k, logs / float(n_batch))`. -/
def VAENormalizingFlow.latent (S : ScalarOps) (flow : NormalizingFlow)
    (x mu sigma eps : Batch) : Batch × ℚ :=
  let n_batch : ℚ := (x.length : ℚ)
  let z_0 := bmap2 (fun a b => a + b) (bmap2 (fun s e => s * e) sigma eps) mu
  let res := NormalizingFlow.forward S flow z_0
  let z_k := res.2.1
  let list_ladj := res.2.2
  let log_p_zk := z_k.map (fun row => row.map (fun v => -(1/2) * v * v))
  let log_q_z0 :=
    bmap2 (fun s d => -(1/2) * (S.log s + d * d * s⁻¹)) sigma
      (bmap2 (fun a b => a - b) z_0 mu)
  let logs0 := bsum (bmap2 (fun a b => a - b) log_q_z0 log_p_zk)
  let ladj := list_ladj.flatten
  (z_k, (logs0 - ladj.sum) / n_batch)

/-- Allocation `torch.Tensor(1, dim)` followed by the `uniform_(-0.01, 0.01)`
fill of
`init_parameters`, for a Python `int` size `dim`: the external tensor
library raises on a negative size, and otherwise yields the row of drawn
values (the draw is supplied as `draw`). -/
def torchTensorRow (dim : ℤ) (draw : ℕ → ℚ) : Option Vec :=
  if dim < 0 then none else some ((List.range dim.toNat).map draw)

/-- Source constructor `__init__(dim)` of `PlanarFlow`: allocates
`weight : (1,dim)`,
`scale : (1,dim)`, `bias : (1,)` and fills them with uniform draws.  There
is no dimension validation in the source; failure can only come from the
tensor allocation itself. -/
def PlanarFlow.init (dim : ℤ) (wdraw udraw : ℕ → ℚ) (bdraw : ℚ) :
    Option PlanarFlow :=
  match torchTensorRow dim wdraw, torchTensorRow dim udraw with
  | some w, some u => some { weight := w, scale := u, bias := bdraw }
  | _, _ => none

/-- Source constructor `__init__(dim)` of `RadialFlow`: allocates
`z0 : (1,dim)` plus the two scalar
parameters and stores `self.dim = dim`.  No dimension validation in the
source. -/
def RadialFlow.init (dim : ℤ) (zdraw : ℕ → ℚ) (adraw bdraw : ℚ) :
    Option RadialFlow :=
  (torchTensorRow dim zdraw).map
    (fun c => { z0 := c, alpha := adraw, beta := bdraw, dim := dim.toNat })

/-- Concrete scalar ops used to instantiate witnesses: `tanh`, `log`, `sqrt`
stand-ins are the identity, `exp` is `1 + x` (so `exp 0 = 1` and
`tanh 0 = 0` hold as for the real functions). -/
def S0 : ScalarOps :=
  { tanh := fun x => x, log := fun x => x, exp := fun x => 1 + x,
    sqrt := fun x => x }

/-- The planar forward transform as the spec words it:
`y = z + u * tanh(w·z + b)`, the broadcast tanh output scaled by `u` and
added elementwise to `z`. -/
def planarForwardSpec (S : ScalarOps) (w u : Vec) (b : ℚ) (z : Vec) : Vec :=
  List.zipWith (fun a c => a + c) z
    (u.map (fun ui => ui * S.tanh (dot w z + b)))

/-- The planar per-sample log-determinant as the spec words it:
`psi = (1 - tanh(w·z+b)^2) * w`; result `log(|1 + psi·u| + 1e-9)`. -/
def planarLadjSpec (S : ScalarOps) (w u : Vec) (b : ℚ) (z : Vec) : ℚ :=
  let psi := w.map (fun wi => (1 - S.tanh (dot w z + b) ^ 2) * wi)
  S.log (|1 + dot psi u| + eps9)

/-- The radial per-sample log-determinant as the spec words it:
`r = ‖z - z0‖`, `h = 1/(alpha+r)`, `hp = -1/(alpha+r)^2`, `bh = beta*h`,
`det = ((1+bh)^dim - 1) * (1 + bh + beta*hp*r)`, result `log(|det| + 1e-9)`. -/
def radialLadjSpec (S : ScalarOps) (c : Vec) (alpha beta : ℚ) (dim : ℕ)
    (z : Vec) : ℚ :=
  let r := S.sqrt ((List.zipWith (fun a b => (a - b) ^ 2) z c).sum)
  let h := 1 / (alpha + r)
  let hp := -(1 / (alpha + r) ^ 2)
  let bh := beta * h
  S.log (|((1 + bh) ^ dim - 1) * (1 + bh + beta * hp * r)| + eps9)

/-- The concrete planar flow of the worked 2-D example in the spec:
`w = [1,0]`, `u = [1,0]`, `b = 0`. -/
def pC2 : PlanarFlow := { weight := [1, 0], scale := [1, 0], bias := 0 }

/-- Concrete radial flow used to instantiate the center fixed-point claim. -/
def pC8 : RadialFlow := { z0 := [1, 2], alpha := 1, beta := 3, dim := 2 }

/-- Single planar flow of dimension 1 with zero parameters (a concrete
`NormalizingFlow` instance for witnesses). -/
def nfW : NormalizingFlow :=
  { bijectors := [.planar { weight := [0], scale := [0], bias := 0 }],
    log_det := [] }

lemma zipWith_center (c : ℚ) (l : Vec) :
    List.zipWith (fun zi z0i => zi + c * (zi - z0i)) l l = l := by
  induction l with
  | nil => rfl
  | cons a t ih => simp [ih]

lemma flatMap_const {α β : Type} (l : List β) (xs : List α) :
    xs.flatMap (fun _ => l) = (List.replicate xs.length l).flatten := by
  induction xs with
  | nil => rfl
  | cons a t ih => simp [ih, List.replicate_succ]

lemma callRow_length (S : ScalarOps) (f : Flow) (d : ℕ)
    (hf : Flow.hasDim d f) (z : Vec) (hz : z.length = d) :
    (Flow.callRow S f z).length = d := by
  cases f with
  | planar p =>
    obtain ⟨hw, hu⟩ := hf
    simp [Flow.callRow, PlanarFlow.call, hz, hu]
  | radial p =>
    simp only [Flow.hasDim] at hf
    simp [Flow.callRow, RadialFlow.call, hz, hf]

lemma forward_shape (S : ScalarOps) (f : Flow) (B D : ℕ)
    (hf : Flow.hasDim D f) {z : Batch} (hz : IsMatrix B D z) :
    IsMatrix B D (Flow.forward S f z) := by
  obtain ⟨hl, hr⟩ := hz
  constructor
  · simpa [Flow.forward] using hl
  · intro r hrmem
    simp only [Flow.forward, List.mem_map] at hrmem
    obtain ⟨a, ha, rfl⟩ := hrmem
    exact callRow_length S f D hf a (hr a ha)

lemma applySeq_cons (S : ScalarOps) (f : Flow) (fs : List Flow) (z : Batch) :
    applySeq S (f :: fs) z = applySeq S fs (Flow.forward S f z) := rfl

lemma applySeq_shape (S : ScalarOps) (B D : ℕ) :
    ∀ (fs : List Flow), (∀ f ∈ fs, Flow.hasDim D f) →
      ∀ z, IsMatrix B D z → IsMatrix B D (applySeq S fs z) := by
  intro fs
  induction fs with
  | nil => intro _ z hz; exact hz
  | cons f t ih =>
    intro hf z hz
    rw [applySeq_cons]
    exact ih (fun g hg => hf g (List.mem_cons_of_mem f hg)) _
      (forward_shape S f B D (hf f (List.mem_cons_self f t)) hz)

lemma flowSteps_fst (S : ScalarOps) :
    ∀ (fs : List Flow) (z : Batch), (flowSteps S fs z).1 = applySeq S fs z := by
  intro fs
  induction fs with
  | nil => intro z; rfl
  | cons f t ih => intro z; simp [flowSteps, applySeq_cons, ih]

lemma flowSteps_length (S : ScalarOps) :
    ∀ (fs : List Flow) (z : Batch), (flowSteps S fs z).2.length = fs.length := by
  intro fs
  induction fs with
  | nil => intro z; rfl
  | cons f t ih => intro z; simp [flowSteps, ih]

lemma flowSteps_get (S : ScalarOps) :
    ∀ (fs : List Flow) (z : Batch) (i : ℕ),
      (flowSteps S fs z).2.get? i =
        (fs.get? i).map
          (fun f => Flow.log_abs_det_jacobian S f (applySeq S (fs.take i) z)) := by
  intro fs
  induction fs with
  | nil => intro z i; simp [flowSteps]
  | cons f t ih =>
    intro z i
    cases i with
    | zero => simp [flowSteps, applySeq]
    | succ j => exact ih (Flow.forward S f z) j

/-- C1: `NormalizingFlow.forward` visits the flows in list order; entry `i`
of the returned log-determinant list is `log_abs_det_jacobian` of flow `i`
evaluated at the batch obtained by applying the first `i` flows (the
pre-transform `z`); the list has exactly as many entries as there are flows;
the returned batch is the full composition and keeps the input
`(batch_size, dim)` shape. -/
theorem normalizing_flow_forward_correct (S : ScalarOps)
    (nf : NormalizingFlow) (z : Batch) (B D : ℕ)
    (hf : ∀ f ∈ nf.bijectors, Flow.hasDim D f) (hz : IsMatrix B D z) :
    ((NormalizingFlow.forward S nf z).2.2).length = nf.bijectors.length ∧
    (∀ i : ℕ, ((NormalizingFlow.forward S nf z).2.2).get? i =
      (nf.bijectors.get? i).map
        (fun f => Flow.log_abs_det_jacobian S f
          (applySeq S (nf.bijectors.take i) z))) ∧
    (NormalizingFlow.forward S nf z).2.1 = applySeq S nf.bijectors z ∧
    IsMatrix B D ((NormalizingFlow.forward S nf z).2.1) := by
  refine ⟨flowSteps_length S nf.bijectors z,
    fun i => flowSteps_get S nf.bijectors z i, flowSteps_fst S nf.bijectors z,
    ?_⟩
  have h1 : (NormalizingFlow.forward S nf z).2.1 = applySeq S nf.bijectors z :=
    flowSteps_fst S nf.bijectors z
  rw [h1]
  exact applySeq_shape S B D nf.bijectors hf z hz

/-- Witness for C1 at a concrete one-flow sequence on a `(1,1)` batch. -/
theorem normalizing_flow_forward_correct_witness :
    ((NormalizingFlow.forward S0 nfW [[0]]).2.2).length =
      nfW.bijectors.length ∧
    IsMatrix 1 1 ((NormalizingFlow.forward S0 nfW [[0]]).2.1) := by
  have h := normalizing_flow_forward_correct S0 nfW [[0]] 1 1
    (by
      intro f hfmem
      simp only [nfW, List.mem_singleton] at hfmem
      subst hfmem
      exact ⟨rfl, rfl⟩)
    (by
      refine ⟨rfl, ?_⟩
      intro r hr
      simp only [List.mem_singleton] at hr
      subst hr
      rfl)
  exact ⟨h.1, h.2.2.2⟩

/-- C2: the planar `log_abs_det_jacobian` computes, per sample,
`log(|1 + psi·u| + 1e-9)` with `psi = (1 - tanh(w·z+b)^2) * w`; on the
worked 2-D example of the spec (`w=[1,0]`, `u=[1,0]`, `b=0`, `z=[[0,0]]`) it
returns `[log(2 + 1e-9)]` and the forward output is `[[0,0]]`. -/
theorem planar_ladj_correct (S : ScalarOps) (p : PlanarFlow) (z : Batch)
    (ht : S.tanh 0 = 0) :
    Flow.log_abs_det_jacobian S (.planar p) z =
      z.map (planarLadjSpec S p.weight p.scale p.bias) ∧
    Flow.log_abs_det_jacobian S (.planar pC2) [[0, 0]] =
      [S.log (2 + eps9)] ∧
    Flow.forward S (.planar pC2) [[0, 0]] = [[0, 0]] := by
  refine ⟨?_, ?_, ?_⟩
  · have hfun : Flow.ladjRow S (Flow.planar p) =
        planarLadjSpec S p.weight p.scale p.bias := by
      funext zr
      simp only [Flow.ladjRow, PlanarFlow.log_abs_det_jacobian_row,
        planarLadjSpec, PlanarFlow.f_z]
    simp only [Flow.log_abs_det_jacobian, hfun]
  · simp [Flow.log_abs_det_jacobian, Flow.ladjRow,
      PlanarFlow.log_abs_det_jacobian_row, PlanarFlow.f_z, pC2, dot, ht]
    norm_num
  · simp [Flow.forward, Flow.callRow, PlanarFlow.call, PlanarFlow.f_z, pC2,
      dot, ht]

/-- Witness for C2: instantiated with the concrete runtime `S0`
(whose tanh stand-in fixes 0). -/
theorem planar_ladj_correct_witness :
    Flow.log_abs_det_jacobian S0 (.planar pC2) [[0, 0]] =
      [S0.log (2 + eps9)] ∧
    Flow.forward S0 (.planar pC2) [[0, 0]] = [[0, 0]] := by
  have h := planar_ladj_correct S0 pC2 [[0, 0]] rfl
  exact ⟨h.2.1, h.2.2⟩

/-- C3: the radial `log_abs_det_jacobian` computes, per sample,
`log(|det| + 1e-9)` with `r = ‖z - z0‖`, `h = 1/(alpha+r)`,
`hp = -1/(alpha+r)^2`, `bh = beta*h`,
`det = ((1+bh)^dim - 1) * (1 + bh + beta*hp*r)`. -/
theorem radial_ladj_correct (S : ScalarOps) (p : RadialFlow) (z : Batch) :
    Flow.log_abs_det_jacobian S (.radial p) z =
      z.map (radialLadjSpec S p.z0 p.alpha p.beta p.dim) := by
  have hfun : Flow.ladjRow S (Flow.radial p) =
      radialLadjSpec S p.z0 p.alpha p.beta p.dim := by
    funext zr
    simp only [Flow.ladjRow, RadialFlow.log_abs_det_jacobian_row,
      radialLadjSpec, RadialFlow.r]
  simp only [Flow.log_abs_det_jacobian, hfun]

/-- C6: the `NormalizingFlow` constructor builds the flow list as
`flow_length` concatenated copies of the instantiated block list (outer loop
over repetitions, inner loop over blocks), for `flow_length * len(blocks)`
instances in total; with `blocks = [b]`, `flow_length = 3`, `dim = 4` the
list is exactly `[b 4, b 4, b 4]`. -/
theorem flow_sequence_init (dim flow_length : ℕ) (blocks : List (ℕ → Flow))
    (b : ℕ → Flow) :
    (NormalizingFlow.init dim blocks flow_length).bijectors =
      (List.replicate flow_length (blocks.map (fun bl => bl dim))).flatten ∧
    (NormalizingFlow.init dim blocks flow_length).bijectors.length =
      flow_length * blocks.length ∧
    (NormalizingFlow.init 4 [b] 3).bijectors = [b 4, b 4, b 4] := by
  have h1 : (NormalizingFlow.init dim blocks flow_length).bijectors =
      (List.replicate flow_length (blocks.map (fun bl => bl dim))).flatten := by
    simp [NormalizingFlow.init, flatMap_const]
  refine ⟨h1, ?_, ?_⟩
  · rw [h1]
    simp [List.length_flatten, List.map_replicate, List.sum_replicate]
  · simp [NormalizingFlow.init, List.range_succ]

/-- C7: the planar forward transform is `y = z + u * tanh(w·z + b)`
(broadcast tanh output scaled elementwise by `u`). -/
theorem planar_forward_correct (S : ScalarOps) (p : PlanarFlow) (z : Batch) :
    Flow.forward S (.planar p) z =
      z.map (planarForwardSpec S p.weight p.scale p.bias) := by
  have hfun : Flow.callRow S (Flow.planar p) =
      planarForwardSpec S p.weight p.scale p.bias := by
    funext zr
    simp only [Flow.callRow, PlanarFlow.call, planarForwardSpec,
      PlanarFlow.f_z, List.zipWith_map_right]
  simp only [Flow.forward, hfun]

/-- C8: the radial flow maps its own center to itself — on the batch whose
single row is `z0`, the forward output is again `z0` (the displacement
`beta*h*(z - z0)` vanishes), for any `alpha ≠ 0` and any `beta`. -/
theorem radial_at_center (S : ScalarOps) (p : RadialFlow)
    (ha : p.alpha ≠ 0) :
    Flow.forward S (.radial p) [p.z0] = [p.z0] := by
  simp only [Flow.forward, Flow.callRow, List.map_cons, List.map_nil,
    RadialFlow.call]
  rw [zipWith_center]

/-- Witness for C8 at a concrete radial flow with `alpha = 1`. -/
theorem radial_at_center_witness :
    Flow.forward S0 (.radial pC8) [[1, 2]] = [[1, 2]] :=
  radial_at_center S0 pC8 (by norm_num [pC8])

/-- The plain-mode regularization as the spec words it:
`kl = -0.5 * sum(1 + sigma - mu^2 - exp(sigma))` (then divided by the batch
size at the return site). -/
def klSpec (S : ScalarOps) (mu sigma : Batch) : ℚ :=
  -(1/2) * bsum (bmap2 (fun s m => 1 + s - m ^ 2 - S.exp s) sigma mu)

/-- C5: plain-mode `VAE.latent` returns `z = sigma * eps + mu` together with
`kl = -0.5 * sum(1 + sigma - mu^2 - exp(sigma)) / batch_size`; for
`mu = 0`, `sigma = 0`, batch size 1, dim 1 the returned kl is `0`
(for any draw), since `exp 0 = 1`. -/
theorem vae_latent_kl (S : ScalarOps) (x mu sigma eps : Batch)
    (he : S.exp 0 = 1) :
    VAE.latent S x mu sigma eps =
      (bmap2 (fun a b => a + b) (bmap2 (fun s e => s * e) sigma eps) mu,
        klSpec S mu sigma / (x.length : ℚ)) ∧
    (∀ (xr er : Vec), (VAE.latent S [xr] [[0]] [[0]] [er]).2 = 0) := by
  refine ⟨rfl, ?_⟩
  intro xr er
  simp [VAE.latent, bmap2, bsum, he]

/-- Witness for C5 with the concrete runtime `S0` (whose `exp 0 = 1`). -/
theorem vae_latent_kl_witness :
    (VAE.latent S0 [[0]] [[0]] [[0]] [[7]]).2 = 0 := by
  have h := vae_latent_kl S0 [[0]] [[0]] [[0]] [[7]] (by norm_num [S0])
  exact h.2 [0] [7]

/-- The flow-augmented latent computation as the spec words it: `zk` is the
output of the flow sequence on `z0`; `log_p_zk = -0.5 * zk^2` per element;
`log_q_z0 = -0.5 * (log(sigma) + (z0-mu)^2 / sigma)` per element;
`logs = sum(log_q_z0 - log_p_zk)` over all elements minus the sum of all
recorded per-flow log-determinants; the result is `(zk, logs / batch_size)`. -/
def latentFlowSpec (S : ScalarOps) (flow : NormalizingFlow)
    (x mu sigma eps : Batch) : Batch × ℚ :=
  let z_0 := bmap2 (fun a b => a + b) (bmap2 (fun s e => s * e) sigma eps) mu
  let z_k := applySeq S flow.bijectors z_0
  let lds := (flowSteps S flow.bijectors z_0).2
  let log_p := z_k.map (fun row => row.map (fun v => -(1/2) * v ^ 2))
  let log_q := bmap2 (fun s d => -(1/2) * (S.log s + d ^ 2 / s)) sigma
    (bmap2 (fun a b => a - b) z_0 mu)
  let logs := bsum (bmap2 (fun a b => a - b) log_q log_p) -
    (lds.map List.sum).sum
  (z_k, logs / (x.length : ℚ))

/-- C4: `VAENormalizingFlow.latent` returns exactly the pair the spec
describes: the flow output `zk` and
`(sum(log_q_z0 - log_p_zk) - sum of recorded log-determinants) / batch_size`. -/
theorem vae_flow_latent_correct (S : ScalarOps) (flow : NormalizingFlow)
    (x mu sigma eps : Batch) :
    VAENormalizingFlow.latent S flow x mu sigma eps =
      latentFlowSpec S flow x mu sigma eps := by
  have hp : (fun v : ℚ => -(1/2) * v * v) = (fun v : ℚ => -(1/2) * v ^ 2) := by
    funext v; ring
  have hq : (fun s d : ℚ => -(1/2) * (S.log s + d * d * s⁻¹)) =
      (fun s d : ℚ => -(1/2) * (S.log s + d ^ 2 / s)) := by
    funext s d
    rw [div_eq_mul_inv]
    ring
  simp only [VAENormalizingFlow.latent, latentFlowSpec,
    NormalizingFlow.forward, flowSteps_fst, hp, hq, List.sum_flatten]

/-- Counterexample to C9: a `forward` call does have a side effect beyond
its returned values — the `log_det` attribute of the object is overwritten (here
from `[[1]]` to the empty recording of this call), so the `NormalizingFlow`
object is not left unchanged. -/
theorem flow_forward_mutates_state :
    (NormalizingFlow.forward S0 { bijectors := [], log_det := [[1]] } []).1 ≠
      { bijectors := [], log_det := [[1]] } := by
  decide

/-- C9 (amended): `forward` overwrites the `log_det` attribute of the object
with
the recording of exactly this call (never appending to the previous one);
the returned values depend only on the flow list and the input — two objects
with the same `bijectors` but different stored `log_det` return the same
outputs — and the flow list itself is unchanged.  So nothing accumulates
across repeated calls, but the `log_det` state of the object is updated. -/
theorem flow_forward_fresh_log_det (S : ScalarOps)
    (nf nf2 : NormalizingFlow) (z : Batch)
    (h : nf.bijectors = nf2.bijectors) :
    (NormalizingFlow.forward S nf z).1.log_det =
      (NormalizingFlow.forward S nf z).2.2 ∧
    (NormalizingFlow.forward S nf z).2 =
      (NormalizingFlow.forward S nf2 z).2 ∧
    (NormalizingFlow.forward S nf z).1.bijectors = nf.bijectors := by
  refine ⟨rfl, ?_, rfl⟩
  simp only [NormalizingFlow.forward, h]

/-- Witness for the amended C9: a concrete flow object and a copy carrying a
stale `log_det` give identical forward results. -/
theorem flow_forward_fresh_log_det_witness :
    (NormalizingFlow.forward S0 nfW [[0]]).1.log_det =
      (NormalizingFlow.forward S0 nfW [[0]]).2.2 ∧
    (NormalizingFlow.forward S0 nfW [[0]]).2 =
      (NormalizingFlow.forward S0 { nfW with log_det := [[5]] } [[0]]).2 := by
  have h := flow_forward_fresh_log_det S0 nfW
    { nfW with log_det := [[5]] } [[0]] rfl
  exact ⟨h.1, h.2.1⟩

/-- Counterexample to C10: construction with `dim = 0` silently succeeds for
both flow classes — instead of rejecting the non-positive dimension, the
constructors produce degenerate instances with empty parameter vectors. -/
theorem flow_init_dim_zero_succeeds :
    PlanarFlow.init 0 (fun _ => 0) (fun _ => 0) 0 =
      some { weight := [], scale := [], bias := 0 } ∧
    RadialFlow.init 0 (fun _ => 0) 0 0 =
      some { z0 := [], alpha := 0, beta := 0, dim := 0 } := by
  constructor <;> rfl

/-- C10 (amended): the constructors perform no dimension validation of their
own; construction fails exactly for negative `dim` (the underlying tensor
allocation raises there), and in particular `dim = 0` is silently accepted. -/
theorem flow_init_succeeds_iff (dim : ℤ) (wdraw udraw zdraw : ℕ → ℚ)
    (b a bb : ℚ) :
    ((PlanarFlow.init dim wdraw udraw b).isSome ↔ 0 ≤ dim) ∧
    ((RadialFlow.init dim zdraw a bb).isSome ↔ 0 ≤ dim) := by
  constructor
  · by_cases hd : dim < 0 <;>
      simp [PlanarFlow.init, torchTensorRow, hd] <;> omega
  · by_cases hd : dim < 0 <;>
      simp [RadialFlow.init, torchTensorRow, hd] <;> omega

end FlowVAE
